import Mathlib

/-!
# Verification of the TTS audio cache (`main.go`)

Shallow embedding of the LRU + expiration cache and of the
get-or-generate facade of the `free-tts-api` service, together with
proofs and refutations of its specified properties.

Modelling conventions:
* Go byte strings (`string`, `[]byte`) are `List Nat` of byte values.
* `time.Time` / `time.Duration` are `Nat` instants / durations; each
  operation that reads `time.Now()` takes the instant `now` explicitly.
* The Go map `cache : map[string]*list.Element` stores pointers into
  `lruList`; in the model the map component is its key set (`List Key`)
  and the pointed-to `cacheItem` is recovered from `lruList` by key.
  Pointer identity corresponds to key lookup because the code keeps at
  most one list node per key.
* `container/list` with `PushFront`/`MoveToFront`/`Back` is a
  `List cacheItem` whose head is the most-recently-used end;
  `MoveToFront elem` followed by a value overwrite is "erase the node
  with that key, cons the new item".
* The mutex and goroutine interleavings are not modelled; each
  operation is a whole critical section, applied atomically to the
  state, matching the lock-per-operation discipline of the code.
-/

/-- Go byte strings: a list of byte values. -/
abbrev Bytes := List Nat

/-- Cache keys are Go strings, i.e. byte lists. -/
abbrev Key := List Nat

/-- Structure `AudioCacheEntry` from `main.go`: payload bytes plus creation time. -/
structure AudioCacheEntry where
  data : Bytes
  timestamp : Nat
deriving DecidableEq, Repr

/-- Structure `cacheItem` from `main.go`: the value stored in each `lruList` node. -/
structure cacheItem where
  key : Key
  entry : AudioCacheEntry
deriving DecidableEq, Repr

/-- Structure `AudioCache` from `main.go`: the map's key set, the recency list
(head = most recently used), the TTL and the capacity. -/
structure AudioCache where
  cache : List Key
  lruList : List cacheItem
  expiration : Nat
  maxSize : Nat
deriving DecidableEq, Repr

/-- Constructor `NewAudioCache` from `main.go`: empty map and list with the given
capacity and expiration (the background sweeper goroutine it spawns is
modelled by explicit `evictExpiredOnce` steps). -/
def NewAudioCache (maxSize expiration : Nat) : AudioCache :=
  { cache := [], lruList := [], expiration := expiration, maxSize := maxSize }

/-- Method `AudioCache.get` from `main.go`: on a resident key, move its node to
the front of the recency list and return its payload with `true`;
otherwise return `(nil, false)`. Ages are not examined. -/
def AudioCache.get (c : AudioCache) (key : Key) : (Bytes × Bool) × AudioCache :=
  if key ∈ c.cache then
    match c.lruList.find? (fun it => it.key == key) with
    | some it =>
        ((it.entry.data, true),
         { c with lruList := it :: c.lruList.eraseP (fun it2 => it2.key == key) })
    | none => (([], false), c)
  else
    (([], false), c)

/-- Method `AudioCache.remove` from `main.go`: delete the key from the map and
its node from the recency list; no-op when absent. -/
def AudioCache.remove (c : AudioCache) (key : Key) : AudioCache :=
  if key ∈ c.cache then
    { c with
      cache := c.cache.erase key
      lruList := c.lruList.eraseP (fun it => it.key == key) }
  else c

/-- Method `AudioCache.set` from `main.go`: on a resident key, move its node to
the front and overwrite it with the new payload and timestamp; on a new
key, first evict the back (least-recently-used) node when the list is at
or above capacity, then push the new item to the front and record the
key in the map. -/
def AudioCache.set (c : AudioCache) (key : Key) (data : Bytes) (now : Nat) : AudioCache :=
  if key ∈ c.cache then
    { c with
      lruList :=
        { key := key, entry := { data := data, timestamp := now } } ::
          c.lruList.eraseP (fun it => it.key == key) }
  else
    let c1 :=
      if c.lruList.length ≥ c.maxSize then
        match c.lruList.getLast? with
        | some oldest => c.remove oldest.key
        | none => c
      else c
    { c1 with
      cache := key :: c1.cache
      lruList :=
        { key := key, entry := { data := data, timestamp := now } } :: c1.lruList }

/-- One pass of `AudioCache.evictExpiredEntries` from `main.go`, woken
at instant `now`: for every resident key whose entry's age exceeds the
expiration, call `remove`. The Go loop ranges over a map whose
iteration order is unspecified; the removals of distinct keys commute,
so folding over the expired keys in list order is faithful. -/
def AudioCache.evictExpiredOnce (c : AudioCache) (now : Nat) : AudioCache :=
  (c.cache.filter (fun k =>
      match c.lruList.find? (fun it => it.key == k) with
      | some it => decide (now - it.entry.timestamp > c.expiration)
      | none => false)).foldl (fun acc k => acc.remove k) c

/-- FNV-1a 32-bit hash (`hash/fnv`, `fnv.New32a`) over a byte list. -/
def fnv32a (bytes : List Nat) : Nat :=
  bytes.foldl (fun h b => ((h ^^^ b % 256) * 16777619) % 2 ^ 32) 2166136261

/-- Rendering `fmt.Sprintf "%x"` of an unsigned integer: lowercase hex digits,
no leading zeros, as a byte list. -/
def hexBytes (n : Nat) : List Nat :=
  (Nat.toDigits 16 n).map Char.toNat

/-- Function `hashKey` from `main.go`: the hex rendering of the FNV-1a 32-bit
hash of `text ++ ":" ++ lang` (byte 58 is `:`). No further input enters
the key. -/
def hashKey (text lang : Key) : Key :=
  hexBytes (fnv32a (text ++ [58] ++ lang))

/-- Errors of the synthesis collaborator, carried opaquely: the code
propagates `error` values without inspecting or wrapping them. -/
abbrev GenError := List Nat

/-- Function `getOrGenerateAudio` from `main.go`. `gen` is the outcome the
collaborator `generateCompressedAudioData` would produce for this
request, `now` the instant of a cache write. The third component counts
collaborator invocations (the code performs zero on a hit, one on a
miss). -/
def getOrGenerateAudio (text lang : Key) (gen : Except GenError Bytes)
    (c : AudioCache) (now : Nat) : Except GenError Bytes × AudioCache × Nat :=
  match c.get (hashKey text lang) with
  | ((data, true), c') => (.ok data, c', 0)
  | ((_, false), c') =>
    match gen with
    | .error e => (.error e, c', 1)
    | .ok audioData => (.ok audioData, c'.set (hashKey text lang) audioData now, 1)

/-- The §3 invariant relating the two structures: both are duplicate
free and a key is in the map exactly when some recency node carries it. -/
def AudioCache.wf (c : AudioCache) : Prop :=
  c.cache.Nodup ∧ (c.lruList.map cacheItem.key).Nodup ∧
  (∀ k ∈ c.cache, k ∈ c.lruList.map cacheItem.key) ∧
  (∀ k ∈ c.lruList.map cacheItem.key, k ∈ c.cache)

instance (c : AudioCache) : Decidable c.wf := by
  unfold AudioCache.wf; infer_instance

/-- A sequence of `set` calls applied in order. -/
def applySets (c : AudioCache) (ops : List (Key × Bytes × Nat)) : AudioCache :=
  ops.foldl (fun acc op => acc.set op.1 op.2.1 op.2.2) c

/-! ## Structural lemmas about the map/list pairing -/

lemma map_key_eraseP (l : List cacheItem) (k : Key) :
    (l.eraseP (fun it => it.key == k)).map cacheItem.key =
      (l.map cacheItem.key).erase k := by
  induction l with
  | nil => rfl
  | cons a l ih =>
    by_cases h : a.key = k
    · simp [List.eraseP_cons, List.erase_cons, h]
    · simp [List.eraseP_cons, List.erase_cons, h, ih]

lemma find?_key_eq (l : List cacheItem) (k : Key)
    (h : k ∈ l.map cacheItem.key) :
    ∃ it, l.find? (fun it => it.key == k) = some it ∧ it.key = k ∧ it ∈ l := by
  have hs : (l.find? (fun it => it.key == k)).isSome := by
    rw [List.find?_isSome]
    obtain ⟨it, hmem, hkey⟩ := List.mem_map.mp h
    exact ⟨it, hmem, by simp [hkey]⟩
  obtain ⟨it, hf⟩ := Option.isSome_iff_exists.mp hs
  exact ⟨it, hf, by simpa using List.find?_some hf, List.mem_of_find?_eq_some hf⟩

lemma wf_cons_eraseP (c : AudioCache) (k : Key) (it : cacheItem)
    (hit : it.key = k) (hk : k ∈ c.cache) (h : c.wf) :
    AudioCache.wf
      { c with lruList := it :: c.lruList.eraseP (fun it2 => it2.key == k) } := by
  obtain ⟨h1, h2, h3, h4⟩ := h
  refine ⟨h1, ?_, ?_, ?_⟩
  · simp only [List.map_cons, map_key_eraseP, hit]
    exact List.nodup_cons.mpr
      ⟨fun hc => ((h2.mem_erase_iff).mp hc).1 rfl, h2.erase k⟩
  · intro x hx
    simp only [List.map_cons, map_key_eraseP, hit, List.mem_cons]
    by_cases hxk : x = k
    · exact Or.inl hxk
    · exact Or.inr ((h2.mem_erase_iff).mpr ⟨hxk, h3 x hx⟩)
  · intro x hx
    simp only [List.map_cons, map_key_eraseP, hit, List.mem_cons] at hx
    rcases hx with hxk | hx
    · exact hxk ▸ hk
    · exact h4 x (((h2.mem_erase_iff).mp hx).2)

lemma wf_remove (c : AudioCache) (k : Key) (h : c.wf) : (c.remove k).wf := by
  obtain ⟨h1, h2, h3, h4⟩ := h
  unfold AudioCache.remove
  by_cases hk : k ∈ c.cache
  · simp only [if_pos hk]
    refine ⟨h1.erase k, ?_, ?_, ?_⟩
    · simpa [map_key_eraseP] using h2.erase k
    · intro x hx
      have hx' := (h1.mem_erase_iff).mp hx
      rw [map_key_eraseP]
      exact (h2.mem_erase_iff).mpr ⟨hx'.1, h3 x hx'.2⟩
    · intro x hx
      simp only [map_key_eraseP] at hx
      have := (h2.mem_erase_iff).mp hx
      exact (h1.mem_erase_iff).mpr ⟨this.1, h4 x this.2⟩
  · simp only [if_neg hk]
    exact ⟨h1, h2, h3, h4⟩

lemma remove_cache_subset (c : AudioCache) (k : Key) :
    ∀ x ∈ (c.remove k).cache, x ∈ c.cache := by
  unfold AudioCache.remove
  by_cases hk : k ∈ c.cache
  · simp only [if_pos hk]
    exact fun x hx => (List.erase_sublist k c.cache).mem hx
  · simp only [if_neg hk]
    exact fun x hx => hx

lemma wf_get (c : AudioCache) (k : Key) (h : c.wf) : ((c.get k).2).wf := by
  by_cases hk : k ∈ c.cache
  · obtain ⟨it, hf, hkey, _⟩ := find?_key_eq c.lruList k (h.2.2.1 k hk)
    simp only [AudioCache.get, if_pos hk, hf]
    exact wf_cons_eraseP c k it hkey hk h
  · simp only [AudioCache.get, if_neg hk]
    exact h

lemma wf_length_eq (c : AudioCache) (h : c.wf) :
    c.cache.length = c.lruList.length := by
  have hp : c.cache.Perm (c.lruList.map cacheItem.key) :=
    (List.perm_ext_iff_of_nodup h.1 h.2.1).mpr fun a => ⟨h.2.2.1 a, h.2.2.2 a⟩
  simpa using hp.length_eq

lemma wf_cons_new (c : AudioCache) (k : Key) (e : AudioCacheEntry)
    (hk : k ∉ c.cache) (h : c.wf) :
    AudioCache.wf
      { c with cache := k :: c.cache, lruList := ⟨k, e⟩ :: c.lruList } := by
  obtain ⟨h1, h2, h3, h4⟩ := h
  have hk2 : k ∉ c.lruList.map cacheItem.key := fun hm => hk (h4 k hm)
  refine ⟨List.nodup_cons.mpr ⟨hk, h1⟩, ?_, ?_, ?_⟩
  · simpa using List.nodup_cons.mpr ⟨hk2, h2⟩
  · intro x hx
    simp only [List.map_cons, List.mem_cons] at hx ⊢
    rcases hx with hxk | hx
    · exact Or.inl hxk
    · exact Or.inr (h3 x hx)
  · intro x hx
    simp only [List.map_cons, List.mem_cons] at hx ⊢
    rcases hx with hxk | hx
    · exact Or.inl hxk
    · exact Or.inr (h4 x hx)

lemma wf_set (c : AudioCache) (k : Key) (d : Bytes) (now : Nat) (h : c.wf) :
    (c.set k d now).wf := by
  unfold AudioCache.set
  by_cases hk : k ∈ c.cache
  · simp only [if_pos hk]
    exact wf_cons_eraseP c k _ rfl hk h
  · simp only [if_neg hk]
    by_cases hlen : c.lruList.length ≥ c.maxSize
    · simp only [if_pos hlen]
      cases hl : c.lruList.getLast? with
      | none => exact wf_cons_new c k _ hk h
      | some oldest =>
        exact wf_cons_new _ k _
          (fun hm => hk (remove_cache_subset c oldest.key k hm))
          (wf_remove c oldest.key h)
    · simp only [if_neg hlen]
      exact wf_cons_new c k _ hk h

lemma remove_maxSize (c : AudioCache) (k : Key) :
    (c.remove k).maxSize = c.maxSize := by
  unfold AudioCache.remove; split <;> rfl

lemma set_maxSize (c : AudioCache) (k : Key) (d : Bytes) (now : Nat) :
    (c.set k d now).maxSize = c.maxSize := by
  unfold AudioCache.set
  by_cases hk : k ∈ c.cache
  · simp only [if_pos hk]
  · simp only [if_neg hk]
    by_cases hlen : c.lruList.length ≥ c.maxSize
    · simp only [if_pos hlen]
      cases hl : c.lruList.getLast? with
      | none => rfl
      | some oldest => exact remove_maxSize c oldest.key
    · simp only [if_neg hlen]

lemma set_cache_length_le (c : AudioCache) (k : Key) (d : Bytes) (now : Nat)
    (h : c.wf) (hle : c.cache.length ≤ c.maxSize) (hpos : 1 ≤ c.maxSize) :
    (c.set k d now).cache.length ≤ c.maxSize := by
  have heq : c.cache.length = c.lruList.length := wf_length_eq c h
  unfold AudioCache.set
  by_cases hk : k ∈ c.cache
  · simp only [if_pos hk]
    exact hle
  · simp only [if_neg hk]
    by_cases hlen : c.lruList.length ≥ c.maxSize
    · simp only [if_pos hlen]
      have hne : c.lruList ≠ [] := by
        intro hnil
        rw [hnil] at hlen
        simp only [List.length_nil] at hlen
        omega
      obtain ⟨oldest, hl⟩ :=
        Option.isSome_iff_exists.mp (List.getLast?_isSome.mpr hne)
      rw [hl]
      have hmem : oldest.key ∈ c.cache :=
        h.2.2.2 _ (List.mem_map_of_mem _ (List.mem_of_mem_getLast? hl))
      have hrl : (c.remove oldest.key).cache.length = c.cache.length - 1 := by
        unfold AudioCache.remove
        simp only [if_pos hmem]
        exact List.length_erase_of_mem hmem
      simp only [List.length_cons, hrl]
      omega
    · simp only [if_neg hlen, List.length_cons]
      omega

lemma applySets_cons (c : AudioCache) (op : Key × Bytes × Nat)
    (ops : List (Key × Bytes × Nat)) :
    applySets c (op :: ops) = applySets (c.set op.1 op.2.1 op.2.2) ops := rfl

lemma applySets_inv (ops : List (Key × Bytes × Nat)) (c : AudioCache)
    (h : c.wf) (hle : c.cache.length ≤ c.maxSize) (hpos : 1 ≤ c.maxSize) :
    (applySets c ops).wf ∧ (applySets c ops).cache.length ≤ c.maxSize := by
  induction ops generalizing c with
  | nil => exact ⟨h, hle⟩
  | cons op ops ih =>
    have h1 := wf_set c op.1 op.2.1 op.2.2 h
    have h2 := set_cache_length_le c op.1 op.2.1 op.2.2 h hle hpos
    have h3 := set_maxSize c op.1 op.2.1 op.2.2
    rw [applySets_cons]
    have := ih (c.set op.1 op.2.1 op.2.2) h1 (h3 ▸ h2) (h3 ▸ hpos)
    exact ⟨this.1, h3 ▸ this.2⟩

lemma find?_eraseP_ne (l : List cacheItem) (k k2 : Key) (h : k2 ≠ k) :
    (l.eraseP (fun it => it.key == k)).find? (fun it => it.key == k2) =
      l.find? (fun it => it.key == k2) := by
  induction l with
  | nil => rfl
  | cons a l ih =>
    by_cases ha : a.key = k
    · have hpa : (a.key == k) = true := beq_iff_eq.mpr ha
      have ha2 : (a.key == k2) = false := by
        refine beq_eq_false_iff_ne.mpr ?_
        rw [ha]
        exact fun hh => h hh.symm
      rw [List.eraseP_cons, hpa, cond_true, List.find?_cons, ha2]
    · have hpa : (a.key == k) = false := beq_eq_false_iff_ne.mpr ha
      rw [List.eraseP_cons, hpa, cond_false, List.find?_cons, List.find?_cons]
      cases ha2 : (a.key == k2) with
      | true => rfl
      | false => exact ih

lemma get_snd_of_miss (c : AudioCache) (k : Key)
    (h : (c.get k).1.2 = false) : (c.get k).2 = c := by
  unfold AudioCache.get at h ⊢
  by_cases hk : k ∈ c.cache
  · simp only [if_pos hk] at h ⊢
    cases hf : c.lruList.find? (fun it => it.key == k) with
    | some it => rw [hf] at h; simp at h
    | none => rfl
  · simp [if_neg hk]

lemma foldl_remove_not_mem (ks : List Key) (c : AudioCache) (k : Key)
    (hk : k ∉ c.cache) :
    k ∉ (ks.foldl (fun acc k2 => acc.remove k2) c).cache := by
  induction ks generalizing c with
  | nil => exact hk
  | cons a ks ih =>
    exact ih (c.remove a) (fun hm => hk (remove_cache_subset c a k hm))

lemma remove_not_mem_self (c : AudioCache) (k : Key)
    (h1 : c.cache.Nodup) : k ∉ (c.remove k).cache := by
  unfold AudioCache.remove
  by_cases hk : k ∈ c.cache
  · simp only [if_pos hk]
    exact fun hm => ((h1.mem_erase_iff).mp hm).1 rfl
  · simp only [if_neg hk]
    exact hk

lemma foldl_remove_removes (ks : List Key) (c : AudioCache) (k : Key)
    (hwf : c.wf) (hk : k ∈ ks) :
    k ∉ (ks.foldl (fun acc k2 => acc.remove k2) c).cache := by
  induction ks generalizing c with
  | nil => cases hk
  | cons a ks ih =>
    rcases List.mem_cons.mp hk with hka | hks
    · subst hka
      exact foldl_remove_not_mem ks (c.remove k) k
        (remove_not_mem_self c k hwf.1)
    · exact ih (c.remove a) (wf_remove c a hwf) hks

/-! ## Claim theorems -/

/-- C1, counterexample: with ttl 100, the key `[65]` is set at instant 60
and survives the sweep at instant 100 (age 40). At any later lookup
instant — e.g. 170, when its age is `170 - 60 = 110 > ttl` — `get`
still reports a hit with the stale payload, because `get` never
examines ages: the claimed "expired entries are treated as misses by
lookup itself" is false of the code. -/
theorem C1_counterexample :
    ((((NewAudioCache 100 100).set [65] [7] 60).evictExpiredOnce 100).get
        [65]).1.2 = true ∧
    170 - 60 > (NewAudioCache 100 100).expiration := by decide

/-- C1, amended: `get` does not itself re-check age, so an entry whose
age strictly exceeds `ttl` is still returned as a hit until the sweeper
runs; but every sweep removes each entry whose age at the sweep instant
strictly exceeds `ttl`, so a `get` issued after such a sweep misses. -/
theorem C1_sweep_expired_then_get_misses (c : AudioCache) (k : Key)
    (it : cacheItem) (now : Nat) (hwf : c.wf) (hk : k ∈ c.cache)
    (hfind : c.lruList.find? (fun it2 => it2.key == k) = some it)
    (hexp : now - it.entry.timestamp > c.expiration) :
    ((c.evictExpiredOnce now).get k).1.2 = false := by
  have hkf : k ∈ c.cache.filter (fun k2 =>
      match c.lruList.find? (fun it2 => it2.key == k2) with
      | some it2 => decide (now - it2.entry.timestamp > c.expiration)
      | none => false) := by
    refine List.mem_filter.mpr ⟨hk, ?_⟩
    rw [hfind]
    exact decide_eq_true hexp
  have hnot : k ∉ (c.evictExpiredOnce now).cache := by
    unfold AudioCache.evictExpiredOnce
    exact foldl_remove_removes _ c k hwf hkf
  unfold AudioCache.get
  simp [hnot]

theorem C1_sweep_expired_then_get_misses_witness :
    ((((NewAudioCache 100 100).set [65] [7] 0).evictExpiredOnce 201).get
        [65]).1.2 = false :=
  C1_sweep_expired_then_get_misses ((NewAudioCache 100 100).set [65] [7] 0)
    [65] ⟨[65], ⟨[7], 0⟩⟩ 201 (by decide) (by decide) (by decide) (by decide)

/-- C2, counterexample: a cache created with capacity 0 accepts an
insertion anyway (`Back()` of the empty recency list is nil, so nothing
is evicted and the new entry is pushed), leaving 1 entry > capacity 0. -/
theorem C2_counterexample :
    ¬ (((NewAudioCache 0 100).set [65] [1] 0).cache.length ≤
        (NewAudioCache 0 100).maxSize) := by decide

/-- C2, amended: for every cache created with capacity at least 1, after
every sequence of `set` calls the number of entries in the map is at
most the capacity. -/
theorem C2_capacity_bound (maxSize expiration : Nat)
    (ops : List (Key × Bytes × Nat)) (hpos : 1 ≤ maxSize) :
    (applySets (NewAudioCache maxSize expiration) ops).cache.length ≤
      maxSize := by
  have hwf : (NewAudioCache maxSize expiration).wf := by
    refine ⟨List.nodup_nil, List.nodup_nil, ?_, ?_⟩ <;> intro k hk <;> cases hk
  exact (applySets_inv ops (NewAudioCache maxSize expiration) hwf
    (Nat.zero_le _) hpos).2

theorem C2_capacity_bound_witness :
    (applySets (NewAudioCache 2 100)
      [([65], [1], 0), ([66], [2], 1), ([67], [3], 2)]).cache.length ≤ 2 :=
  C2_capacity_bound 2 100 [([65], [1], 0), ([66], [2], 1), ([67], [3], 2)]
    (by decide)

/-- C3: inserting a new key into a store whose entry count equals its
capacity evicts exactly the key at the back of the recency list (the
least-recently-used key) and keeps every other resident key: the
resulting key set is the new key together with every old key other
than the LRU key. -/
theorem C3_full_insert_evicts_lru (c : AudioCache) (k : Key) (d : Bytes)
    (now : Nat) (oldest : cacheItem) (hwf : c.wf)
    (hfull : c.cache.length = c.maxSize) (hnew : k ∉ c.cache)
    (hold : c.lruList.getLast? = some oldest) :
    ∀ x, x ∈ (c.set k d now).cache ↔
      x = k ∨ (x ∈ c.cache ∧ x ≠ oldest.key) := by
  have heq := wf_length_eq c hwf
  have hlen : c.lruList.length ≥ c.maxSize := by omega
  have hmem : oldest.key ∈ c.cache :=
    hwf.2.2.2 _ (List.mem_map_of_mem _ (List.mem_of_mem_getLast? hold))
  unfold AudioCache.set
  simp only [if_neg hnew, if_pos hlen]
  rw [hold]
  unfold AudioCache.remove
  simp only [if_pos hmem, List.mem_cons]
  intro x
  constructor
  · rintro (hx | hx)
    · exact Or.inl hx
    · have hx' := (hwf.1.mem_erase_iff).mp hx
      exact Or.inr ⟨hx'.2, hx'.1⟩
  · rintro (hx | hx)
    · exact Or.inl hx
    · exact Or.inr ((hwf.1.mem_erase_iff).mpr ⟨hx.2, hx.1⟩)

theorem C3_full_insert_evicts_lru_witness :
    ([67] ∈ ((((((NewAudioCache 2 1000).set [65] [1] 0).set [66] [2] 1).get
        [65]).2).set [67] [3] 2).cache) ∧
    ([65] ∈ ((((((NewAudioCache 2 1000).set [65] [1] 0).set [66] [2] 1).get
        [65]).2).set [67] [3] 2).cache) ∧
    ([66] ∉ ((((((NewAudioCache 2 1000).set [65] [1] 0).set [66] [2] 1).get
        [65]).2).set [67] [3] 2).cache) := by
  have h := C3_full_insert_evicts_lru
    (((((NewAudioCache 2 1000).set [65] [1] 0).set [66] [2] 1).get [65]).2)
    [67] [3] 2 ⟨[66], ⟨[2], 1⟩⟩ (by decide) (by decide) (by decide) (by decide)
  refine ⟨(h [67]).mpr (Or.inl rfl),
          (h [65]).mpr (Or.inr ⟨by decide, by decide⟩), fun hmem => ?_⟩
  rcases (h [66]).mp hmem with hx | hx
  · exact absurd hx (by decide)
  · exact absurd hx.2 (by decide)

/-- C4, counterexample: `hashKey` joins text and language with `:` and
hashes the result, so the logically distinct requests
(text `a:b`, lang `c`) and (text `a`, lang `b:c`) feed the identical
byte string `a:b:c` to the hash and derive the same key; the variant
dimension does not enter the key at all. -/
theorem C4_counterexample :
    hashKey [97, 58, 98] [99] = hashKey [97] [98, 58, 99] ∧
    ¬ ([97, 58, 98] = ([97] : Key) ∧ [99] = ([98, 58, 99] : Key)) := by
  decide

/-- C4, amended: the key derivation is a pure deterministic function of
the byte string `text ++ ":" ++ lang` alone — identical requests always
derive the same key — but distinct requests whose joined strings
coincide derive equal keys, and no variant input is incorporated. -/
theorem C4_key_determined_by_joined_string (t1 l1 t2 l2 : Key)
    (h : t1 ++ [58] ++ l1 = t2 ++ [58] ++ l2) :
    hashKey t1 l1 = hashKey t2 l2 := by
  unfold hashKey
  rw [h]

theorem C4_key_determined_by_joined_string_witness :
    hashKey [97, 58, 98] [99] = hashKey [97] [98, 58, 99] :=
  C4_key_determined_by_joined_string [97, 58, 98] [99] [97] [98, 58, 99]
    (by decide)

/-- C6: when the lookup misses and the synthesis collaborator fails,
`getOrGenerateAudio` returns exactly the collaborator's error and the
whole cache state — in particular its key set and entry count — is
unchanged. -/
theorem C6_failure_no_store_mutation (text lang : Key) (e : GenError)
    (c : AudioCache) (now : Nat)
    (hmiss : (c.get (hashKey text lang)).1.2 = false) :
    getOrGenerateAudio text lang (.error e) c now = (.error e, c, 1) := by
  have hc := get_snd_of_miss c (hashKey text lang) hmiss
  unfold getOrGenerateAudio
  rcases hg : c.get (hashKey text lang) with ⟨⟨data, b⟩, c2⟩
  rw [hg] at hmiss hc
  cases b with
  | true => simp at hmiss
  | false =>
    simp only at hc
    rw [hc]

theorem C6_failure_no_store_mutation_witness :
    getOrGenerateAudio [97] [101] (.error [5]) (NewAudioCache 10 1000) 0 =
      (.error [5], NewAudioCache 10 1000, 1) :=
  C6_failure_no_store_mutation [97] [101] [5] (NewAudioCache 10 1000) 0
    (by decide)

/-- C7: when the derived key is a hit, `getOrGenerateAudio` returns the
cached payload (the data `get` yields) and performs zero collaborator
invocations, whatever outcome the collaborator would have produced. -/
theorem C7_hit_zero_invocations (text lang : Key)
    (gen : Except GenError Bytes) (c : AudioCache) (now : Nat)
    (hhit : (c.get (hashKey text lang)).1.2 = true) :
    getOrGenerateAudio text lang gen c now =
      (.ok (c.get (hashKey text lang)).1.1,
       (c.get (hashKey text lang)).2, 0) := by
  unfold getOrGenerateAudio
  rcases hg : c.get (hashKey text lang) with ⟨⟨data, b⟩, c2⟩
  rw [hg] at hhit
  cases b with
  | false => simp at hhit
  | true => rfl

theorem C7_hit_zero_invocations_witness :
    getOrGenerateAudio [97] [101] (.ok [3])
      ((getOrGenerateAudio [97] [101] (.ok [1, 2]) (NewAudioCache 10 1000)
          0).2.1) 5 =
      (.ok (((getOrGenerateAudio [97] [101] (.ok [1, 2])
              (NewAudioCache 10 1000) 0).2.1).get (hashKey [97] [101])).1.1,
       (((getOrGenerateAudio [97] [101] (.ok [1, 2]) (NewAudioCache 10 1000)
            0).2.1).get (hashKey [97] [101])).2, 0) :=
  C7_hit_zero_invocations [97] [101] (.ok [3])
    ((getOrGenerateAudio [97] [101] (.ok [1, 2]) (NewAudioCache 10 1000)
        0).2.1) 5 (by decide)

/-- C8: from a state where the map's key set and the recency order are
in sync (both duplicate free, membership coinciding), every `get`,
`set` and `remove` leaves them in sync. -/
theorem C8_ops_preserve_sync (c : AudioCache) (k : Key) (d : Bytes)
    (now : Nat) (h : c.wf) :
    ((c.get k).2).wf ∧ (c.set k d now).wf ∧ (c.remove k).wf :=
  ⟨wf_get c k h, wf_set c k d now h, wf_remove c k h⟩

theorem C8_ops_preserve_sync_witness :
    (((((NewAudioCache 2 1000).set [65] [1] 0).set [66] [2] 1).get
        [65]).2).wf ∧
    ((((NewAudioCache 2 1000).set [65] [1] 0).set [66] [2] 1).set [65]
        [9] 9).wf ∧
    ((((NewAudioCache 2 1000).set [65] [1] 0).set [66] [2] 1).remove
        [65]).wf :=
  C8_ops_preserve_sync
    (((NewAudioCache 2 1000).set [65] [1] 0).set [66] [2] 1) [65] [9] 9
    (by decide)

/-- C9: for every cache state, key and payload — the empty payload
included — `set` immediately followed by `get` on the same key returns
that payload with `true`. -/
theorem C9_set_then_get_roundtrip (c : AudioCache) (k : Key) (d : Bytes)
    (now : Nat) :
    ((c.set k d now).get k).1 = (d, true) := by
  unfold AudioCache.set AudioCache.get
  by_cases hk : k ∈ c.cache
  · simp [hk, List.find?_cons]
  · simp [hk, List.find?_cons]

/-- C10: overwriting a resident key replaces exactly that key's payload
and timestamp and moves it to the most-recently-used end: the map's key
set is unchanged (so nothing is evicted) and every other key's recency
node — payload and timestamp included — is exactly what it was. -/
theorem C10_overwrite_frame (c : AudioCache) (k : Key) (d : Bytes)
    (now : Nat) (hk : k ∈ c.cache) :
    (c.set k d now).cache = c.cache ∧
    (c.set k d now).lruList.head? =
      some { key := k, entry := { data := d, timestamp := now } } ∧
    ∀ k2, k2 ≠ k →
      (c.set k d now).lruList.find? (fun it => it.key == k2) =
        c.lruList.find? (fun it => it.key == k2) := by
  unfold AudioCache.set
  rw [if_pos hk]
  refine ⟨rfl, rfl, ?_⟩
  intro k2 hne
  simp only [List.find?_cons]
  have hf : (k == k2) = false :=
    beq_eq_false_iff_ne.mpr fun hh => hne hh.symm
  simp only [hf]
  exact find?_eraseP_ne c.lruList k k2 hne

theorem C10_overwrite_frame_witness :
    ((((NewAudioCache 2 1000).set [66] [2] 0).set [65] [1] 1).set [65]
        [9] 7).cache =
      (((NewAudioCache 2 1000).set [66] [2] 0).set [65] [1] 1).cache ∧
    ((((NewAudioCache 2 1000).set [66] [2] 0).set [65] [1] 1).set [65]
        [9] 7).lruList.head? =
      some { key := [65], entry := { data := [9], timestamp := 7 } } ∧
    ((((NewAudioCache 2 1000).set [66] [2] 0).set [65] [1] 1).set [65]
        [9] 7).lruList.find? (fun it => it.key == [66]) =
      (((NewAudioCache 2 1000).set [66] [2] 0).set [65]
        [1] 1).lruList.find? (fun it => it.key == [66]) := by
  have h := C10_overwrite_frame
    (((NewAudioCache 2 1000).set [66] [2] 0).set [65] [1] 1) [65] [9] 7
    (by decide)
  exact ⟨h.1, h.2.1, h.2.2 [66] (by decide)⟩
